import Mathlib

/-!
Verification of the AgentFlux streaming pipeline against its specification.

The Go sources are shallowly embedded as Lean functions:
* `pkg/processor` (hash_processor.go): `FileResult`, `NewHashProcessor`,
  `processFile`, `calculateHash`, `extractStrings`, `scanStrings`;
* `pkg/dedup` (engine.go): `getDeduplicationKey`, `Deduplicate`;
* `pkg/scanner` (scanner.go): `isHiddenFile`, `shouldExclude`;
* `pkg/api` (client.go): `NewAPIClient`, `sendBatch`, `addAuthToRequest`,
  `sendWithRetries`, `calculateBackoff`;
* `cmd` (main.go): the `run` wiring of configuration onto the stages.

File-system, HTTP and crypto primitives are external collaborators: their
outcomes (stat results, open/seek/read errors, HTTP responses, raw digests,
glob matching) are passed in as explicit parameters, and the control flow of
the repository functions over those outcomes is translated line by line.
Machine integers (`int64`) are modelled as `Int`; byte slices as `List Nat`
with values below 256; `time.Duration` arithmetic as exact rationals in
nanoseconds.
-/

namespace AgentFlux

/-! ### Data model: `processor.FileResult` (hash_processor.go)

`ModTime` and `ProcessedAt` are wall-clock values; they are carried as
opaque integers.  `MimeType` is present in the Go struct and never
populated by the processor. -/

structure FileResult where
  path : String
  name : String
  size : Int
  modTime : Int
  hash : String
  hashAlgorithm : String
  mimeType : String
  strings : List String
  error : String
  isExecutable : Bool
  processedAt : Int
  deriving DecidableEq

/-! ### Deduplication engine (`pkg/dedup/engine.go`)

`DeduplicationType` is a string type with constants `HashDedup = "hash"`,
`PathDedup = "path"`, `NameDedup = "name"`.  The engine `seen`
`map[string]bool` is modelled as a list of keys with membership lookup. -/

/-- Embeds `DeduplicationEngine.getDeduplicationKey`: a `switch` on the
engine field `DedupType` with cases `"hash"`, `"path"`, `"name"` and a
default falling back to the hash key.  `fmt.Sprintf("%d", result.Size)` is
`toString` on `Int`. -/
def getDeduplicationKey (dedupType : String) (result : FileResult) : String :=
  if dedupType = "hash" then result.hashAlgorithm ++ ":" ++ result.hash
  else if dedupType = "path" then result.path
  else if dedupType = "name" then result.name ++ "#" ++ toString result.size
  else result.hashAlgorithm ++ ":" ++ result.hash

/-- The mutable state of a `DeduplicationEngine`: the `seen` set and the two
counters guarded by the engine lock. -/
structure DedupState where
  seen : List String
  totalFiles : Nat
  uniqueFiles : Nat
  deriving DecidableEq

/-- State of a freshly constructed engine (`NewDeduplicationEngine`). -/
def initDedupState : DedupState := ⟨[], 0, 0⟩

/-- Embeds the per-record body of `DeduplicationEngine.Deduplicate`:
increment `totalFiles`; a record with non-empty `Error` is dropped; an
already-seen key is dropped; otherwise the key is inserted, `uniqueFiles`
is incremented and the record is forwarded.  The input channel is the list
of records in arrival order; the returned list is the forwarded stream. -/
def deduplicate (dedupType : String) (s : DedupState) :
    List FileResult → DedupState × List FileResult
  | [] => (s, [])
  | r :: rs =>
    let s1 : DedupState := { s with totalFiles := s.totalFiles + 1 }
    if r.error ≠ "" then
      deduplicate dedupType s1 rs
    else
      let key := getDeduplicationKey dedupType r
      if key ∈ s1.seen then
        deduplicate dedupType s1 rs
      else
        let s2 : DedupState :=
          { s1 with seen := key :: s1.seen, uniqueFiles := s1.uniqueFiles + 1 }
        let rest := deduplicate dedupType s2 rs
        (rest.1, r :: rest.2)

/-- The description of the forwarded stream in the specification, written
from the words of the claim: a record is forwarded iff its `error` field is empty and
no earlier record of the run with empty `error` carries the same dedup key.
`prior` is the list of records that arrived earlier. -/
def claimForward (dedupType : String) (prior : List FileResult) :
    List FileResult → List FileResult
  | [] => []
  | r :: rs =>
    if r.error = "" ∧
        ¬ ∃ q ∈ prior, q.error = "" ∧
          getDeduplicationKey dedupType q = getDeduplicationKey dedupType r then
      r :: claimForward dedupType (prior ++ [r]) rs
    else
      claimForward dedupType (prior ++ [r]) rs

/-! ### Walker (`pkg/scanner/scanner.go`) -/

/-- Embeds `isHiddenFile`: `len(filename) > 0 && filename[0] == '.'`.
The first byte of a UTF-8 string is a dot exactly when its first
character is. -/
def isHiddenFile (filename : String) : Bool :=
  match filename.data with
  | [] => false
  | c :: _ => c == '.'

/-- Embeds `FileScanner.shouldExclude`.  `matchGlob pat s` is the outcome of
the external `filepath.Match(pat, s)`: `some b` when it returns `(b, nil)`,
`none` when it returns a non-nil `ErrBadPattern`.  `baseName` is the
external `filepath.Base`.  The loop returns `true` as soon as
`err == nil && matched` holds for the basename or for the full path, and
`false` after all patterns are exhausted. -/
def shouldExclude (matchGlob : String → String → Option Bool)
    (baseName : String → String) (patterns : List String) (path : String) : Bool :=
  patterns.any (fun pat =>
    (matchGlob pat (baseName path) == some true) ||
      (matchGlob pat path == some true))

/-- The error-channel messages that `shouldExclude` causes the walker to
emit.  In the source the error returned by `filepath.Match` is only used in
the conjunction `err == nil && matched`; `shouldExclude` has no access to
`errorChannel` and no send occurs anywhere on its paths, so the emitted
message list is empty for every input. -/
def shouldExcludeErrorMessages (_matchGlob : String → String → Option Bool)
    (_baseName : String → String) (_patterns : List String) (_path : String) :
    List String := []

/-- A concrete stand-in for `filepath.Match` used to instantiate theorems:
the single pattern `"["` is malformed (`ErrBadPattern`), every other
pattern matches exactly itself. -/
def matchStub (pat s : String) : Option Bool :=
  if pat = "[" then none else some (pat == s)

/-! ### Hasher (`pkg/processor/hash_processor.go`) -/

/-- The byte-printability test of `scanStrings`: a byte continues a run iff
`!(r > 127 || !unicode.IsPrint(r))`.  For code points up to 127,
`unicode.IsPrint` holds exactly on U+0020 through U+007E. -/
def goIsPrint (b : Nat) : Bool := decide (32 ≤ b ∧ b ≤ 126)

/-- Embeds `HashProcessor.scanStrings` on the buffered window `data`: skip
leading non-printable bytes (`start`), take the printable run from there;
with no data left return `(len(data), nil)`, otherwise return the run and
advance past it.  The result is the same for `atEOF` true or false: with
`start < len(data)` the byte at `start` is printable, so `end > start` and
the run is returned on both paths; with `start ≥ len(data)` both paths
return `(len(data), nil)` — in particular a printable run reaching the end
of the window is returned as a token even when the stream continues. -/
def scanStringsEOF (data : List Nat) : Nat × Option (List Nat) :=
  let start := (data.takeWhile (fun b => !goIsPrint b)).length
  let tok := (data.drop start).takeWhile goIsPrint
  if data.length ≤ start then (data.length, none)
  else (start + tok.length, some tok)

/-- Helper for termination and run analysis: when `takeWhile q` does not
exhaust the list, the element right after it falsifies `q`. -/
theorem takeWhile_lt_head (q : Nat → Bool) :
    ∀ l : List Nat, (l.takeWhile q).length < l.length →
      ∃ b t, l.drop (l.takeWhile q).length = b :: t ∧ q b = false := by
  intro l
  induction l with
  | nil => simp
  | cons c cs ih =>
    by_cases hq : q c
    · intro h
      rw [List.takeWhile_cons_of_pos hq] at h ⊢
      simp only [List.length_cons, List.drop_succ_cons]
      exact ih (by simpa using h)
    · intro _
      refine ⟨c, cs, ?_, by simpa using hq⟩
      rw [List.takeWhile_cons_of_neg hq]
      simp

theorem printable_head_of_lt (data : List Nat)
    (h : (data.takeWhile (fun b => !goIsPrint b)).length < data.length) :
    0 < ((data.drop (data.takeWhile (fun b => !goIsPrint b)).length).takeWhile
      goIsPrint).length := by
  obtain ⟨b, t, hdrop, hb⟩ := takeWhile_lt_head (fun b => !goIsPrint b) data h
  rw [hdrop, List.takeWhile_cons_of_pos (by simpa using hb)]
  simp

/-- The tokens the `bufio.Scanner` driven by `scanStrings` yields from one
buffered window holding `data`: repeatedly apply the split function and
collect the tokens, consuming `advance` bytes each time, until it reports
no token (see `scanTokens_eq_scanStringsEOF` for the loop equation written
with `scanStringsEOF` itself). -/
def scanTokens (data : List Nat) : List (List Nat) :=
  if h : data.length ≤ (data.takeWhile (fun b => !goIsPrint b)).length then []
  else
    ((data.drop (data.takeWhile (fun b => !goIsPrint b)).length).takeWhile goIsPrint) ::
      scanTokens (data.drop ((data.takeWhile (fun b => !goIsPrint b)).length +
        ((data.drop (data.takeWhile (fun b => !goIsPrint b)).length).takeWhile
          goIsPrint).length))
termination_by data.length
decreasing_by
  have hlt : (data.takeWhile (fun b => !goIsPrint b)).length < data.length :=
    Nat.lt_of_not_le h
  have htok := printable_head_of_lt data hlt
  simp only [List.length_drop]
  omega

theorem dropWhile_length_le (q : Nat → Bool) (l : List Nat) :
    (l.dropWhile q).length ≤ l.length := by
  induction l with
  | nil => simp
  | cons a t ih =>
    by_cases h : q a
    · rw [List.dropWhile_cons_of_pos h]; exact Nat.le_succ_of_le ih
    · rw [List.dropWhile_cons_of_neg h]

/-- The notion in the specification of the printable runs of a byte stream:
maximal contiguous sequences of printable bytes, in order. -/
def printableRuns : List Nat → List (List Nat)
  | [] => []
  | b :: bs =>
    if goIsPrint b then
      (b :: bs.takeWhile goIsPrint) :: printableRuns (bs.dropWhile goIsPrint)
    else printableRuns bs
termination_by l => l.length
decreasing_by
  · exact Nat.lt_succ_of_le (dropWhile_length_le goIsPrint bs)
  · simp

/-- `scanner.Text()`: the token bytes as a string (tokens consist of
ASCII bytes, one character per byte). -/
def bytesToString (bs : List Nat) : String := String.mk (bs.map Char.ofNat)

/-- Embeds the token loop of `HashProcessor.extractStrings`: for each token
in order, if its length is at least `StringMinLength` and it was not seen
before in this file, append it to the result and mark it seen; stop as soon
as the result holds 10,000 entries. -/
def extractLoop (minLen : Int) : List String → List String → List String → List String
  | acc, _, [] => acc
  | acc, seen, t :: ts =>
    if minLen ≤ (t.length : Int) ∧ t ∉ seen then
      if 10000 ≤ acc.length + 1 then acc ++ [t]
      else extractLoop minLen (acc ++ [t]) (t :: seen) ts
    else extractLoop minLen acc seen ts

/-- Embeds `HashProcessor.extractStrings` for a stream delivered by a
single `Read` (every file of at most one buffer, 4096 bytes): run the
scanner over the one window and fold the token loop over its output.
Equals `extractStringsChunked` on the one-chunk schedule `[data]`. -/
def extractStrings (minLen : Int) (data : List Nat) : List String :=
  extractLoop minLen [] [] ((scanTokens data).map bytesToString)

/-- The token stream of `bufio.Scanner` over the successive `Read` results
`chunks` (each at most the 4096-byte buffer).  With this split function a
window is always fully consumed before the next `Read`: every application
on a non-empty window advances past a token or past the whole window, and
the scanner reads again only once the window is empty, so no partial run
is buffered across reads and, `scanStrings` being insensitive to `atEOF`,
the stream is the concatenation of the per-window token lists.  A printable
run of the underlying stream that crosses a read boundary is therefore cut
at the boundary. -/
def extractedTokens (chunks : List (List Nat)) : List (List Nat) :=
  (chunks.map scanTokens).flatten

/-- Embeds `HashProcessor.extractStrings` over the read schedule `chunks`:
the token loop folded over the chunked scanner stream. -/
def extractStringsChunked (minLen : Int) (chunks : List (List Nat)) : List String :=
  extractLoop minLen [] [] ((extractedTokens chunks).map bytesToString)

/-- First-occurrence deduplication, written from the words of the spec
("duplicates within one file are removed on insertion"). -/
def dedupKeepFirst (seen : List String) : List String → List String
  | [] => []
  | t :: ts =>
    if t ∈ seen then dedupKeepFirst seen ts
    else t :: dedupKeepFirst (t :: seen) ts

/-- The qualifying tokens of the specification: maximal printable runs of
length at least `minLen`, in stream order. -/
def qualifyingTokens (minLen : Int) (data : List Nat) : List String :=
  ((printableRuns data).map bytesToString).filter
    (fun t => decide (minLen ≤ (t.length : Int)))

/-- The extraction result as the claim describes it over the whole byte
stream: qualifying tokens of the stream, duplicates removed keeping first
occurrences, truncated to 10,000 entries. -/
def specExtractStrings (minLen : Int) (data : List Nat) : List String :=
  (dedupKeepFirst [] (qualifyingTokens minLen data)).take 10000

/-- The amended description of extraction: maximal printable runs taken
per read chunk (runs crossing a chunk boundary are cut), filtered by the
minimum length, first occurrences only, truncated to 10,000 entries. -/
def chunkedSpecStrings (minLen : Int) (chunks : List (List Nat)) : List String :=
  (dedupKeepFirst []
    ((((chunks.map printableRuns).flatten).map bytesToString).filter
      (fun t => decide (minLen ≤ (t.length : Int))))).take 10000

/-- The configurable fields of `processor.HashProcessor`. -/
structure HashProcessor where
  HashAlgorithm : String
  WorkerCount : Int
  ExtractStrings : Bool
  StringMinLength : Int
  SkipLargeFiles : Bool
  MaxFileSize : Int
  deriving DecidableEq

/-- Embeds `NewHashProcessor`: extraction off, minimum string length 4,
large files skipped above a fixed 100 MiB threshold. -/
def NewHashProcessor (algorithm : String) (workers : Int) : HashProcessor :=
  { HashAlgorithm := algorithm, WorkerCount := workers, ExtractStrings := false,
    StringMinLength := 4, SkipLargeFiles := true, MaxFileSize := 100 * 1024 * 1024 }

/-- The fields `processFile` copies out of the `FileInfo` from `os.Stat`:
`Size()`, `ModTime()` and `Mode()&0111 != 0`. -/
structure StatInfo where
  size : Int
  modTime : Int
  isExecutable : Bool
  deriving DecidableEq

/-- The outcomes of the file-system operations `processFile` performs on
one path, in program order: `os.Stat`, `os.Open`, the digest read, the
`Seek(0, io.SeekStart)` rewind, and the extraction re-read.  `content` is
the byte content of the file streamed by the reads. -/
structure FileEnv where
  statResult : Except String StatInfo
  openError : Option String
  content : List Nat
  hashReadError : Option String
  seekError : Option String
  extractReadError : Option String

/-- `"%x"` on one byte: two lowercase hexadecimal digits. -/
def hexChar (n : Nat) : Char :=
  if n < 10 then Char.ofNat (48 + n) else Char.ofNat (87 + n)

/-- `fmt.Sprintf("%x", hasher.Sum(nil))`: each digest byte as two lowercase
hex digits. -/
def hexEncode (bs : List Nat) : String :=
  String.mk ((bs.map (fun b => [hexChar (b / 16 % 16), hexChar (b % 16)])).flatten)

/-- Embeds `HashProcessor.calculateHash`: a `switch` choosing the digest
for `md5 | sha1 | sha256 | sha512` with default `unsupported hash
algorithm`; then the buffered copy into the digest (whose read outcome is
`readError`); then lowercase hex encoding.  `digest` stands for the
external crypto digest: algorithm and content to raw digest bytes. -/
def calculateHash (digest : String → List Nat → List Nat) (alg : String)
    (content : List Nat) (readError : Option String) : Except String String :=
  if alg = "md5" ∨ alg = "sha1" ∨ alg = "sha256" ∨ alg = "sha512" then
    match readError with
    | some e => Except.error e
    | none => Except.ok (hexEncode (digest alg content))
  else Except.error ("unsupported hash algorithm: " ++ alg)

/-- Embeds `HashProcessor.processFile` over the file-system outcomes in
`env`.  `baseName` is the external `filepath.Base`; `now` the value of
`time.Now()` at entry.  The control flow mirrors the source: stat, size
guard, open, hash, then (only when extraction is on) seek and extract,
each failure returning the record with the corresponding `error` text.
The `strings` field is filled by the one-window extraction
(`extractStrings`); see `extractStringsChunked` for extraction over a
general read schedule — the hash and error fields do not depend on it. -/
def processFile (digest : String → List Nat → List Nat)
    (baseName : String → String) (now : Int) (h : HashProcessor)
    (filePath : String) (env : FileEnv) : FileResult :=
  let result : FileResult :=
    { path := filePath, name := baseName filePath, size := 0, modTime := 0,
      hash := "", hashAlgorithm := h.HashAlgorithm, mimeType := "", strings := [],
      error := "", isExecutable := false, processedAt := now }
  match env.statResult with
  | Except.error e => { result with error := "stat error: " ++ e }
  | Except.ok info =>
    let result := { result with
      size := info.size
      modTime := info.modTime
      isExecutable := info.isExecutable }
    if h.SkipLargeFiles ∧ h.MaxFileSize < result.size then
      { result with error := "file too large (" ++ toString result.size ++ " bytes)" }
    else
      match env.openError with
      | some e => { result with error := "open error: " ++ e }
      | none =>
        match calculateHash digest h.HashAlgorithm env.content env.hashReadError with
        | Except.error e => { result with error := "hash error: " ++ e }
        | Except.ok hashValue =>
          let result := { result with hash := hashValue }
          if h.ExtractStrings then
            match env.seekError with
            | some e => { result with error := "seek error: " ++ e }
            | none =>
              match env.extractReadError with
              | some e => { result with error := "string extraction error: " ++ e }
              | none =>
                { result with strings := extractStrings h.StringMinLength env.content }
          else result

/-! ### Configuration and CLI wiring (`cmd/agentflux/main.go`) -/

/-- The `config.Config` struct populated by `parseFlags`. -/
structure Config where
  RootPaths : String
  ParsedRootPaths : List String
  ExcludePaths : String
  ParsedExcludePaths : List String
  MaxDepth : Int
  MaxFileSize : Int
  HashAlgorithm : String
  WorkerCount : Int
  ExtractStrings : Bool
  StringMinLength : Int
  APIEndpoint : String
  APIToken : String
  APIAuthMethod : String
  APIBatchSize : Int
  LogLevel : String
  LogFile : String
  ShowVersion : Bool

/-- Embeds the hash-processor wiring in `run`: construct with
`NewHashProcessor(cfg.HashAlgorithm, cfg.WorkerCount)`, then set only
`ExtractStrings` and `StringMinLength` from the configuration.  Neither
`SkipLargeFiles` nor `MaxFileSize` is touched. -/
def runHashProcessor (cfg : Config) : HashProcessor :=
  let h := NewHashProcessor cfg.HashAlgorithm cfg.WorkerCount
  { h with ExtractStrings := cfg.ExtractStrings,
           StringMinLength := cfg.StringMinLength }

/-! ### Shipper (`pkg/api/client.go`) -/

/-- Outcome of one `httpClient.Do(req)`: a transport error or a status
code. -/
inductive HTTPOutcome
  | netErr (msg : String)
  | status (code : Nat)
  deriving DecidableEq

/-- Embeds the loop of `APIClient.sendWithRetries`
(`for retries := 0; retries <= maxRetries; retries++`).  `responses i` is
the outcome of the attempt with counter `i`; `fuel` is the number of loop
iterations still permitted (`maxRetries + 1 - retries`), so fuel
exhaustion is exactly the loop condition failing.  The result is the
number of HTTP attempts issued and the returned error (`none` after a 2xx
success).  A 2xx returns immediately; a 4xx other than 429 breaks with the
API error; everything else stores the error and retries. -/
def sendLoopFuel (responses : Nat → HTTPOutcome) :
    Nat → Nat → Option String → Nat × Option String
  | 0, retries, lastErr => (retries, lastErr)
  | fuel + 1, retries, _ =>
    match responses retries with
    | HTTPOutcome.netErr msg =>
      sendLoopFuel responses fuel (retries + 1) (some ("request error: " ++ msg))
    | HTTPOutcome.status code =>
      if 200 ≤ code ∧ code < 300 then (retries + 1, none)
      else
        if 400 ≤ code ∧ code < 500 ∧ code ≠ 429 then
          (retries + 1, some ("API error: status " ++ toString code))
        else
          sendLoopFuel responses fuel (retries + 1)
            (some ("API error: status " ++ toString code))

/-- `APIClient.sendWithRetries` entered with `retries = 0` and
`lastErr = nil`. -/
def sendWithRetries (responses : Nat → HTTPOutcome) (maxRetries : Nat) :
    Nat × Option String :=
  sendLoopFuel responses (maxRetries + 1) 0 none

/-- The dynamic value stored in the client field `Credentials` (an empty
interface)
field: the type switch in `addAuthToRequest` distinguishes `string`,
`BasicAuth`, `map[string]string`, and everything else. -/
inductive CredValue
  | strVal (s : String)
  | basicAuthVal (username password : String)
  | mapVal (entries : List (String × String))
  | otherVal
  deriving DecidableEq

/-- `map[string]string` lookup with its presence flag. -/
def lookupCred (entries : List (String × String)) (k : String) : Option String :=
  (entries.find? (fun p => p.1 == k)).map (fun p => p.2)

/-- Embeds `APIClient.addAuthToRequest`: the header set on success (basic
auth base64 encoding of user and password is elided; the header carries the
pair) or the error returned.  Mirrors the nested type switches of the
source. -/
def addAuthToRequest (method : String) (creds : CredValue) :
    Except String (List (String × String)) :=
  if method = "bearer" then
    match creds with
    | CredValue.strVal token => Except.ok [("Authorization", "Bearer " ++ token)]
    | _ => Except.error "bearer auth requires a string token"
  else if method = "basic" then
    match creds with
    | CredValue.basicAuthVal u p =>
      Except.ok [("Authorization", "Basic " ++ u ++ ":" ++ p)]
    | CredValue.mapVal entries =>
      match lookupCred entries "username", lookupCred entries "password" with
      | some u, some p => Except.ok [("Authorization", "Basic " ++ u ++ ":" ++ p)]
      | _, _ => Except.error "basic auth requires username and password"
    | _ => Except.error "basic auth requires BasicAuth struct or map with username/password"
  else if method = "api-key" then
    match creds with
    | CredValue.strVal key => Except.ok [("X-API-Key", key)]
    | _ => Except.error "api-key auth requires a string key"
  else Except.error ("unsupported authentication method: " ++ method)

/-- The configurable fields of `api.APIClient`. -/
structure APIClient where
  Endpoint : String
  AuthMethod : String
  Credentials : CredValue
  BatchSize : Int
  MaxRetries : Nat
  UserAgent : String
  deriving DecidableEq

/-- Embeds `NewAPIClient`: defaults `BatchSize = 100`, `MaxRetries = 3`,
`UserAgent = "FileHashAgent/1.0"`. -/
def NewAPIClient (endpoint : String) (authMethod : String)
    (credentials : CredValue) : APIClient :=
  { Endpoint := endpoint, AuthMethod := authMethod, Credentials := credentials,
    BatchSize := 100, MaxRetries := 3, UserAgent := "FileHashAgent/1.0" }

/-- Embeds the API-client wiring in `run`: the CLI always passes
`cfg.APIToken`, a plain string, as the credentials value, then overrides
only `BatchSize`. -/
def runAPIClient (cfg : Config) : APIClient :=
  let a := NewAPIClient cfg.APIEndpoint cfg.APIAuthMethod
    (CredValue.strVal cfg.APIToken)
  { a with BatchSize := cfg.APIBatchSize }

/-- Embeds `APIClient.sendBatch`: empty batches are skipped; request
construction (whose outcome is `requestError`; `json.Marshal` of
`FileResult` values cannot fail) precedes authentication, which precedes
`sendWithRetries`.  The result counts HTTP attempts actually issued and
carries the returned error. -/
def sendBatch (a : APIClient) (requestError : Option String)
    (responses : Nat → HTTPOutcome) (batch : List FileResult) :
    Nat × Option String :=
  if batch.isEmpty then (0, none)
  else
    match requestError with
    | some e => (0, some ("error creating request: " ++ e))
    | none =>
      match addAuthToRequest a.AuthMethod a.Credentials with
      | Except.error e => (0, some ("authentication error: " ++ e))
      | Except.ok _ => sendWithRetries responses a.MaxRetries

/-- A representative non-error record. -/
def sampleRecord : FileResult :=
  { path := "/tmp/a.txt", name := "a.txt", size := 5, modTime := 0,
    hash := "abc123", hashAlgorithm := "sha256", mimeType := "", strings := [],
    error := "", isExecutable := false, processedAt := 0 }

/-- A configuration as `parseFlags` would build it, with `--max-size` set
to 200 MiB (larger than the fixed processor threshold). -/
def witnessConfig : Config :=
  { RootPaths := ".", ParsedRootPaths := ["."], ExcludePaths := "",
    ParsedExcludePaths := [], MaxDepth := -1, MaxFileSize := 209715200,
    HashAlgorithm := "sha256", WorkerCount := 4, ExtractStrings := false,
    StringMinLength := 4, APIEndpoint := "https://api.example.com/v1/files",
    APIToken := "tok", APIAuthMethod := "bearer", APIBatchSize := 100,
    LogLevel := "info", LogFile := "", ShowVersion := false }

/-- The same configuration with `--auth-method=basic`. -/
def basicConfig : Config := { witnessConfig with APIAuthMethod := "basic" }

/-- Stat result of a 150,000,000-byte file: above the fixed processor
100 MiB limit, below the 200 MiB `--max-size` of `witnessConfig`. -/
def largeStat : StatInfo := { size := 150000000, modTime := 0, isExecutable := false }

/-- Environment for the large file: stat succeeds, nothing else is
reached. -/
def largeFileEnv : FileEnv :=
  { statResult := Except.ok largeStat, openError := none, content := [],
    hashReadError := none, seekError := none, extractReadError := none }

/-- Environment where every operation succeeds on a two-byte file. -/
def okEnv : FileEnv :=
  { statResult := Except.ok ⟨2, 0, false⟩, openError := none,
    content := [104, 105], hashReadError := none, seekError := none,
    extractReadError := none }

/-- Environment where hashing succeeds and the subsequent
`Seek(0, io.SeekStart)` fails. -/
def seekFailEnv : FileEnv :=
  { statResult := Except.ok ⟨2, 0, false⟩, openError := none,
    content := [104, 105], hashReadError := none,
    seekError := some "example seek failure", extractReadError := none }

/-- A processor with string extraction enabled, as `run` builds it when
`--strings` is passed. -/
def stringsProcessor : HashProcessor :=
  { HashAlgorithm := "sha256", WorkerCount := 1, ExtractStrings := true,
    StringMinLength := 4, SkipLargeFiles := true, MaxFileSize := 104857600 }

/-- A two-byte stand-in digest used to instantiate the abstract crypto
digest in witnesses. -/
def stubDigest (_alg : String) (_content : List Nat) : List Nat := [171, 205]

/-- One full 4096-byte read of the printable byte `65` (ASCII `A`): the
first half of an 8192-byte all-printable file delivered in two reads. -/
def chunkA : List Nat := List.replicate 4096 65

/-! ## Theorems -/

/-- **C6** (code bug): the spec, the claim and the repository test
`TestIsHiddenFile` require `isHiddenFile` to classify `"."` and `".."` as
not hidden, but the source tests only the first byte, so both come out
hidden.  Ordinary names behave as specified. -/
theorem c6_hidden_dot_eval :
    isHiddenFile "." = true ∧ isHiddenFile ".." = true ∧
      isHiddenFile "regular.txt" = false ∧ isHiddenFile ".gitignore" = true ∧
      isHiddenFile "" = false := by
  decide

/-- **C5** (counterexample): with the dedup type string `"name_size"` the
key function does not produce the `name + "#" + size` key the claim
promises; `"name_size"` is not a recognised variant and falls through to
the default branch. -/
theorem c5_name_size_counterexample :
    getDeduplicationKey "name_size" sampleRecord ≠
      sampleRecord.name ++ "#" ++ toString sampleRecord.size := by
  decide

/-- **C5** (amended): the key is `hash_algorithm + ":" + hash` for type
`"hash"`, the path for `"path"`, `name + "#" + size` for `"name"` (not
`"name_size"`), and every other type string — including `"name_size"` —
falls back to the hash key. -/
theorem c5_dedup_key_amended (r : FileResult) :
    getDeduplicationKey "hash" r = r.hashAlgorithm ++ ":" ++ r.hash ∧
    getDeduplicationKey "path" r = r.path ∧
    getDeduplicationKey "name" r = r.name ++ "#" ++ toString r.size ∧
    ∀ dt : String, dt ≠ "hash" → dt ≠ "path" → dt ≠ "name" →
      getDeduplicationKey dt r = r.hashAlgorithm ++ ":" ++ r.hash := by
  refine ⟨rfl, by simp [getDeduplicationKey], by simp [getDeduplicationKey], ?_⟩
  intro dt h1 h2 h3
  simp [getDeduplicationKey, h1, h2, h3]

/-- Witness for `c5_dedup_key_amended` at the dedup type `"name_size"`. -/
theorem c5_dedup_key_witness :
    ("name_size" ≠ "hash" ∧ "name_size" ≠ "path" ∧ "name_size" ≠ "name") ∧
      getDeduplicationKey "name_size" sampleRecord =
        sampleRecord.hashAlgorithm ++ ":" ++ sampleRecord.hash :=
  ⟨⟨by decide, by decide, by decide⟩,
    (c5_dedup_key_amended sampleRecord).2.2.2 "name_size"
      (by decide) (by decide) (by decide)⟩

/-- **C7** (counterexample): for the malformed glob pattern `"["` the
exclusion check treats the pattern as non-matching and the scan continues,
but the walker emits no error-channel message at all — not the one message
the claim requires. -/
theorem c7_malformed_pattern_counterexample :
    shouldExclude matchStub (fun s => s) ["["] "/tmp/a" = false ∧
      shouldExcludeErrorMessages matchStub (fun s => s) ["["] "/tmp/a" = [] ∧
      (shouldExcludeErrorMessages matchStub (fun s => s) ["["] "/tmp/a").length ≠ 1 := by
  exact ⟨by decide, rfl, by decide⟩

/-- **C7** (amended): a malformed pattern never aborts the scan and is
treated as non-matching — the check excludes the path exactly when some
pattern matches the basename or the full path with a nil error — but the
walker emits no error-channel message for malformed patterns. -/
theorem c7_should_exclude_amended (matchGlob : String → String → Option Bool)
    (baseName : String → String) (patterns : List String) (path : String) :
    (shouldExclude matchGlob baseName patterns path = true ↔
      ∃ pat ∈ patterns, matchGlob pat (baseName path) = some true ∨
        matchGlob pat path = some true) ∧
    shouldExcludeErrorMessages matchGlob baseName patterns path = [] := by
  constructor
  · simp [shouldExclude, List.any_eq_true]
  · rfl

/-- When every attempt yields a 5xx status the retry loop runs its fuel
out: it issues one HTTP attempt per permitted iteration and, once at
least one iteration ran, leaves a non-nil error. -/
theorem sendLoopFuel_all5xx (responses : Nat → HTTPOutcome)
    (h5 : ∀ i, ∃ c, responses i = HTTPOutcome.status c ∧ 500 ≤ c ∧ c ≤ 599) :
    ∀ (fuel retries : Nat) (lastErr : Option String),
      (sendLoopFuel responses fuel retries lastErr).1 = retries + fuel ∧
      (0 < fuel → (sendLoopFuel responses fuel retries lastErr).2.isSome = true) := by
  intro fuel
  induction fuel with
  | zero => intro retries lastErr; exact ⟨rfl, by omega⟩
  | succ fuel ih =>
    intro retries lastErr
    obtain ⟨c, hc, hlo, hhi⟩ := h5 retries
    have hn2 : ¬ (200 ≤ c ∧ c < 300) := by omega
    have hn4 : ¬ (400 ≤ c ∧ c < 500 ∧ c ≠ 429) := by omega
    simp only [sendLoopFuel, hc, hn2, hn4, if_false]
    constructor
    · have := (ih (retries + 1) (some ("API error: status " ++ toString c))).1
      omega
    · intro _
      cases fuel with
      | zero => rfl
      | succ fuel' =>
        exact (ih (retries + 1) (some ("API error: status " ++ toString c))).2
          (Nat.succ_pos _)

/-- **C3**: a batch answered only with 5xx statuses is attempted exactly
`max_retries + 1` times and ends in failure; a batch whose first attempt
draws a non-429 4xx is attempted exactly once and is not retried. -/
theorem c3_retry_envelope (maxRetries : Nat) (resp5xx resp4xx : Nat → HTTPOutcome)
    (h5 : ∀ i, ∃ c, resp5xx i = HTTPOutcome.status c ∧ 500 ≤ c ∧ c ≤ 599)
    (c : Nat) (h40 : resp4xx 0 = HTTPOutcome.status c)
    (h4r : 400 ≤ c ∧ c < 500 ∧ c ≠ 429) :
    ((sendWithRetries resp5xx maxRetries).1 = maxRetries + 1 ∧
      (sendWithRetries resp5xx maxRetries).2.isSome = true) ∧
    ((sendWithRetries resp4xx maxRetries).1 = 1 ∧
      (sendWithRetries resp4xx maxRetries).2.isSome = true) := by
  constructor
  · have h := sendLoopFuel_all5xx resp5xx h5 (maxRetries + 1) 0 none
    unfold sendWithRetries
    exact ⟨by have := h.1; omega, h.2 (Nat.succ_pos _)⟩
  · have hn2 : ¬ (200 ≤ c ∧ c < 300) := by omega
    unfold sendWithRetries
    simp only [sendLoopFuel, h40]
    rw [if_neg hn2, if_pos h4r]
    exact ⟨rfl, rfl⟩

/-- Witness for `c3_retry_envelope` with `max_retries = 3`, a server that
always answers 500, and a server that answers 404 first. -/
theorem c3_retry_envelope_witness :
    ((sendWithRetries (fun _ => HTTPOutcome.status 500) 3).1 = 4 ∧
      (sendWithRetries (fun _ => HTTPOutcome.status 500) 3).2.isSome = true) ∧
    ((sendWithRetries (fun _ => HTTPOutcome.status 404) 3).1 = 1 ∧
      (sendWithRetries (fun _ => HTTPOutcome.status 404) 3).2.isSome = true) :=
  ⟨(c3_retry_envelope 3 (fun _ => HTTPOutcome.status 500)
      (fun _ => HTTPOutcome.status 404)
      (fun _ => ⟨500, rfl, by norm_num, by norm_num⟩) 404 rfl (by norm_num)).1,
    (c3_retry_envelope 3 (fun _ => HTTPOutcome.status 500)
      (fun _ => HTTPOutcome.status 404)
      (fun _ => ⟨500, rfl, by norm_num, by norm_num⟩) 404 rfl (by norm_num)).2⟩

/-- **C10**: with `--auth-method=basic` the CLI still hands the client its
plain-string `--token` value, the basic-auth type switch rejects a string
credential, and `sendBatch` on a non-empty batch fails with an
authentication error after zero HTTP attempts. -/
theorem c10_basic_auth_string_fails (cfg : Config)
    (hm : cfg.APIAuthMethod = "basic") (responses : Nat → HTTPOutcome)
    (batch : List FileResult) (hb : batch ≠ []) :
    (runAPIClient cfg).AuthMethod = "basic" ∧
    (runAPIClient cfg).Credentials = CredValue.strVal cfg.APIToken ∧
    sendBatch (runAPIClient cfg) none responses batch =
      (0, some ("authentication error: " ++
        "basic auth requires BasicAuth struct or map with username/password")) := by
  refine ⟨hm, rfl, ?_⟩
  have hbe : batch.isEmpty = false := by
    cases batch with
    | nil => exact absurd rfl hb
    | cons a t => rfl
  simp only [sendBatch, hbe, Bool.false_eq_true, if_false]
  simp [addAuthToRequest, runAPIClient, NewAPIClient, hm]

/-- Witness for `c10_basic_auth_string_fails` with the concrete
`--auth-method=basic` configuration and a one-record batch. -/
theorem c10_basic_auth_witness :
    (basicConfig.APIAuthMethod = "basic" ∧ [sampleRecord] ≠ []) ∧
      sendBatch (runAPIClient basicConfig) none
        (fun _ => HTTPOutcome.status 200) [sampleRecord] =
        (0, some ("authentication error: " ++
          "basic auth requires BasicAuth struct or map with username/password")) :=
  ⟨⟨rfl, by decide⟩,
    (c10_basic_auth_string_fails basicConfig rfl
      (fun _ => HTTPOutcome.status 200) [sampleRecord] (by decide)).2.2⟩

theorem stubDigest_ne (a : String) (c : List Nat) : stubDigest a c ≠ [] := by
  simp [stubDigest]

theorem string_mk_ne_empty (l : List Char) (hl : l ≠ []) : String.mk l ≠ "" := by
  intro hco
  have hd := congrArg String.data hco
  simp at hd
  exact hl hd

theorem append_ne_empty_of_left (s t : String) (hs : s.data ≠ []) :
    s ++ t ≠ "" := by
  intro hco
  have hd := congrArg String.data hco
  simp [String.data_append] at hd
  exact hs hd.1

theorem hexEncode_ne_empty (bs : List Nat) (h : bs ≠ []) : hexEncode bs ≠ "" := by
  cases bs with
  | nil => exact absurd rfl h
  | cons b t =>
    apply string_mk_ne_empty
    simp [List.flatten]

/-- **C9**: the processor built by `run` always carries
`SkipLargeFiles = true` and the fixed constructor 100 MiB threshold —
the CLI wiring never overrides either field — so any file whose stat size
exceeds 104,857,600 bytes yields a `file too large` error record with an
empty hash, whatever `--max-size` was. -/
theorem c9_max_file_size_fixed (cfg : Config)
    (digest : String → List Nat → List Nat) (baseName : String → String)
    (now : Int) (filePath : String) (env : FileEnv) (info : StatInfo)
    (hstat : env.statResult = Except.ok info)
    (hsize : (104857600 : Int) < info.size) :
    (runHashProcessor cfg).SkipLargeFiles = true ∧
    (runHashProcessor cfg).MaxFileSize = 104857600 ∧
    (processFile digest baseName now (runHashProcessor cfg) filePath env).error =
      "file too large (" ++ toString info.size ++ " bytes)" ∧
    (processFile digest baseName now (runHashProcessor cfg) filePath env).hash = "" := by
  refine ⟨rfl, by norm_num [runHashProcessor, NewHashProcessor], ?_, ?_⟩ <;>
    simp [processFile, hstat, runHashProcessor, NewHashProcessor, hsize]

/-- Witness for `c9_max_file_size_fixed`: a 150,000,000-byte file under a
configuration whose `--max-size` is 200 MiB. -/
theorem c9_max_file_size_witness :
    (largeFileEnv.statResult = Except.ok largeStat ∧
      (104857600 : Int) < largeStat.size ∧ witnessConfig.MaxFileSize = 209715200) ∧
    (processFile stubDigest (fun s => s) 0 (runHashProcessor witnessConfig)
        "/tmp/big.bin" largeFileEnv).error =
      "file too large (" ++ toString largeStat.size ++ " bytes)" ∧
    (processFile stubDigest (fun s => s) 0 (runHashProcessor witnessConfig)
        "/tmp/big.bin" largeFileEnv).hash = "" :=
  ⟨⟨rfl, by norm_num [largeStat], rfl⟩,
    (c9_max_file_size_fixed witnessConfig stubDigest (fun s => s) 0 "/tmp/big.bin"
      largeFileEnv largeStat rfl (by norm_num [largeStat])).2.2.1,
    (c9_max_file_size_fixed witnessConfig stubDigest (fun s => s) 0 "/tmp/big.bin"
      largeFileEnv largeStat rfl (by norm_num [largeStat])).2.2.2⟩

/-- **C1** (counterexample): with string extraction on, a successful hash
followed by a failing seek leaves BOTH the hash and the error non-empty on
the record entering the Deduper — the claimed dichotomy fails exactly on
the path the claim includes. -/
theorem c1_seek_failure_breaks_dichotomy :
    (processFile stubDigest (fun s => s) 0 stringsProcessor "/tmp/f.txt"
        seekFailEnv).hash ≠ "" ∧
    (processFile stubDigest (fun s => s) 0 stringsProcessor "/tmp/f.txt"
        seekFailEnv).error ≠ "" := by
  decide

/-- **C1** (amended): every record emitted by `processFile` satisfies the
hash/error dichotomy — exactly one of `hash`, `error` is non-empty —
EXCEPT when string extraction is enabled and the post-hash seek or the
extraction read fails, in which case both fields are non-empty.
`hdigest` states that the external crypto digest always returns at least
one byte (16–64 for the four supported algorithms). -/
theorem c1_hash_error_dichotomy_amended
    (digest : String → List Nat → List Nat)
    (hdigest : ∀ a c, digest a c ≠ [])
    (baseName : String → String) (now : Int) (h : HashProcessor)
    (filePath : String) (env : FileEnv) :
    ((processFile digest baseName now h filePath env).hash = "" ↔
      (processFile digest baseName now h filePath env).error ≠ "") ∨
    (h.ExtractStrings = true ∧
      (processFile digest baseName now h filePath env).hash ≠ "" ∧
      (processFile digest baseName now h filePath env).error ≠ "" ∧
      (env.seekError ≠ none ∨ env.extractReadError ≠ none)) := by
  obtain ⟨statR, openE, content, hashRE, seekE, extractRE⟩ := env
  cases statR with
  | error e =>
    left
    simp [processFile]
    exact append_ne_empty_of_left _ e (by decide)
  | ok info =>
    by_cases hbig : h.SkipLargeFiles = true ∧ h.MaxFileSize < info.size
    · left
      simp [processFile, hbig]
      exact append_ne_empty_of_left "file too large (" _ (by decide)
    · cases openE with
      | some e =>
        left
        simp [processFile, hbig]
        exact append_ne_empty_of_left _ e (by decide)
      | none =>
        by_cases halg : h.HashAlgorithm = "md5" ∨ h.HashAlgorithm = "sha1" ∨
            h.HashAlgorithm = "sha256" ∨ h.HashAlgorithm = "sha512"
        · cases hashRE with
          | some e =>
            left
            simp [processFile, calculateHash, hbig, halg]
            exact append_ne_empty_of_left _ e (by decide)
          | none =>
            have hne : hexEncode (digest h.HashAlgorithm content) ≠ "" :=
              hexEncode_ne_empty _ (hdigest _ _)
            cases hex : h.ExtractStrings with
            | false =>
              left
              simp [processFile, calculateHash, hbig, halg, hex, hne]
            | true =>
              cases seekE with
              | some e =>
                right
                refine ⟨rfl, ?_, ?_, Or.inl (by simp)⟩ <;>
                  simp [processFile, calculateHash, hbig, halg, hex, hne]
                exact append_ne_empty_of_left "seek error: " e (by decide)
              | none =>
                cases extractRE with
                | some e =>
                  right
                  refine ⟨rfl, ?_, ?_, Or.inr (by simp)⟩ <;>
                    simp [processFile, calculateHash, hbig, halg, hex, hne]
                  exact append_ne_empty_of_left "string extraction error: " e (by decide)
                | none =>
                  left
                  simp [processFile, calculateHash, hbig, halg, hex, hne]
        · left
          simp [processFile, calculateHash, hbig, halg]
          exact append_ne_empty_of_left "hash error: " _ (by decide)

/-- Witness for `c1_hash_error_dichotomy_amended` on a fully successful
two-byte file with extraction off. -/
theorem c1_dichotomy_witness :
    stubDigest "sha256" [104, 105] ≠ [] ∧
    (((processFile stubDigest (fun s => s) 0 (NewHashProcessor "sha256" 1)
        "/tmp/f.txt" okEnv).hash = "" ↔
      (processFile stubDigest (fun s => s) 0 (NewHashProcessor "sha256" 1)
        "/tmp/f.txt" okEnv).error ≠ "") ∨
    ((NewHashProcessor "sha256" 1).ExtractStrings = true ∧
      (processFile stubDigest (fun s => s) 0 (NewHashProcessor "sha256" 1)
        "/tmp/f.txt" okEnv).hash ≠ "" ∧
      (processFile stubDigest (fun s => s) 0 (NewHashProcessor "sha256" 1)
        "/tmp/f.txt" okEnv).error ≠ "" ∧
      (okEnv.seekError ≠ none ∨ okEnv.extractReadError ≠ none))) :=
  ⟨stubDigest_ne "sha256" [104, 105],
    c1_hash_error_dichotomy_amended stubDigest stubDigest_ne
      (fun s => s) 0 (NewHashProcessor "sha256" 1) "/tmp/f.txt" okEnv⟩

theorem dedup_totalFiles (dt : String) :
    ∀ (rs : List FileResult) (s : DedupState),
      (deduplicate dt s rs).1.totalFiles = s.totalFiles + rs.length := by
  intro rs
  induction rs with
  | nil => intro s; rfl
  | cons r rs ih =>
    intro s
    by_cases herr : r.error = ""
    · by_cases hseen : getDeduplicationKey dt r ∈ s.seen
      · simp [deduplicate, herr, hseen, ih]; omega
      · simp [deduplicate, herr, hseen, ih]; omega
    · simp [deduplicate, herr, ih]; omega

theorem dedup_uniqueFiles (dt : String) :
    ∀ (rs : List FileResult) (s : DedupState),
      (deduplicate dt s rs).1.uniqueFiles =
        s.uniqueFiles + ((deduplicate dt s rs).2).length := by
  intro rs
  induction rs with
  | nil => intro s; rfl
  | cons r rs ih =>
    intro s
    by_cases herr : r.error = ""
    · by_cases hseen : getDeduplicationKey dt r ∈ s.seen
      · simp [deduplicate, herr, hseen, ih]
      · simp [deduplicate, herr, hseen, ih]; omega
    · simp [deduplicate, herr, ih]

/-- The engine `seen` set holds exactly the keys of the non-error records
processed so far, so the output of the code agrees with the claim
formulation over earlier arrivals. -/
theorem deduplicate_eq_claimForward (dt : String) :
    ∀ (rs prior : List FileResult) (s : DedupState),
      (∀ k : String, k ∈ s.seen ↔
        ∃ q ∈ prior, q.error = "" ∧ getDeduplicationKey dt q = k) →
      (deduplicate dt s rs).2 = claimForward dt prior rs := by
  intro rs
  induction rs with
  | nil => intro prior s hinv; rfl
  | cons r rs ih =>
    intro prior s hinv
    by_cases herr : r.error = ""
    · by_cases hseen : getDeduplicationKey dt r ∈ s.seen
      · have hdup : ∃ q ∈ prior, q.error = "" ∧
            getDeduplicationKey dt q = getDeduplicationKey dt r :=
          (hinv _).mp hseen
        have hinv' : ∀ k : String, k ∈ s.seen ↔
            ∃ q ∈ prior ++ [r], q.error = "" ∧ getDeduplicationKey dt q = k := by
          intro k
          rw [hinv k]
          constructor
          · rintro ⟨q, hq, hqe, hqk⟩
            exact ⟨q, List.mem_append_left _ hq, hqe, hqk⟩
          · rintro ⟨q, hq, hqe, hqk⟩
            rcases List.mem_append.mp hq with hq' | hq'
            · exact ⟨q, hq', hqe, hqk⟩
            · have hqr : q = r := by simpa using hq'
              subst hqr
              obtain ⟨p, hp, hpe, hpk⟩ := hdup
              exact ⟨p, hp, hpe, hpk.trans hqk⟩
        simp only [deduplicate, claimForward, herr]
        rw [if_neg (by simp), if_pos (by simpa using hseen),
          if_neg (fun hc => hc.2 hdup)]
        exact ih (prior ++ [r]) _ hinv'
      · have hnew : ¬ ∃ q ∈ prior, q.error = "" ∧
            getDeduplicationKey dt q = getDeduplicationKey dt r :=
          fun hc => hseen ((hinv _).mpr hc)
        have hinv' : ∀ k : String,
            k ∈ getDeduplicationKey dt r :: s.seen ↔
            ∃ q ∈ prior ++ [r], q.error = "" ∧ getDeduplicationKey dt q = k := by
          intro k
          constructor
          · intro hk
            rcases List.mem_cons.mp hk with hk' | hk'
            · exact ⟨r, List.mem_append_right _ (List.mem_singleton.mpr rfl),
                herr, hk'.symm⟩
            · obtain ⟨q, hq, hqe, hqk⟩ := (hinv k).mp hk'
              exact ⟨q, List.mem_append_left _ hq, hqe, hqk⟩
          · rintro ⟨q, hq, hqe, hqk⟩
            rcases List.mem_append.mp hq with hq' | hq'
            · exact List.mem_cons_of_mem _ ((hinv k).mpr ⟨q, hq', hqe, hqk⟩)
            · have hqr : q = r := by simpa using hq'
              subst hqr
              rw [← hqk]
              exact List.mem_cons_self _ _
        simp only [deduplicate, claimForward, herr]
        rw [if_neg (by simp), if_neg (by simpa using hseen),
          if_pos ⟨trivial, hnew⟩]
        simp only [List.cons.injEq, true_and]
        exact ih (prior ++ [r]) _ (by simpa using hinv')
    · have hinv' : ∀ k : String, k ∈ s.seen ↔
          ∃ q ∈ prior ++ [r], q.error = "" ∧ getDeduplicationKey dt q = k := by
        intro k
        rw [hinv k]
        constructor
        · rintro ⟨q, hq, hqe, hqk⟩
          exact ⟨q, List.mem_append_left _ hq, hqe, hqk⟩
        · rintro ⟨q, hq, hqe, hqk⟩
          rcases List.mem_append.mp hq with hq' | hq'
          · exact ⟨q, hq', hqe, hqk⟩
          · have hqr : q = r := by simpa using hq'
            exact absurd (hqr ▸ hqe) herr
      simp only [deduplicate, claimForward]
      rw [if_pos herr, if_neg (fun hc => herr hc.1)]
      exact ih (prior ++ [r]) _ hinv'

/-- Every record the claim-side filter forwards has an empty error and a
key not yet carried by any earlier error-free record. -/
theorem claimForward_mem (dt : String) :
    ∀ (rs prior : List FileResult) (x : FileResult),
      x ∈ claimForward dt prior rs →
      x.error = "" ∧ ¬ ∃ q ∈ prior, q.error = "" ∧
        getDeduplicationKey dt q = getDeduplicationKey dt x := by
  intro rs
  induction rs with
  | nil => intro prior x hx; simp [claimForward] at hx
  | cons r rs ih =>
    intro prior x hx
    by_cases hcond : r.error = "" ∧ ¬ ∃ q ∈ prior, q.error = "" ∧
        getDeduplicationKey dt q = getDeduplicationKey dt r
    · rw [claimForward, if_pos hcond] at hx
      rcases List.mem_cons.mp hx with hx' | hx'
      · subst hx'; exact hcond
      · have h := ih (prior ++ [r]) x hx'
        refine ⟨h.1, fun ⟨q, hq, hqe, hqk⟩ =>
          h.2 ⟨q, List.mem_append_left _ hq, hqe, hqk⟩⟩
    · rw [claimForward, if_neg hcond] at hx
      have h := ih (prior ++ [r]) x hx
      refine ⟨h.1, fun ⟨q, hq, hqe, hqk⟩ =>
        h.2 ⟨q, List.mem_append_left _ hq, hqe, hqk⟩⟩

/-- Keys of forwarded records are pairwise distinct: at most one record per
key across the run. -/
theorem claimForward_pairwise (dt : String) :
    ∀ (rs prior : List FileResult),
      (claimForward dt prior rs).Pairwise
        (fun a b => getDeduplicationKey dt a ≠ getDeduplicationKey dt b) := by
  intro rs
  induction rs with
  | nil => intro prior; simp [claimForward]
  | cons r rs ih =>
    intro prior
    by_cases hcond : r.error = "" ∧ ¬ ∃ q ∈ prior, q.error = "" ∧
        getDeduplicationKey dt q = getDeduplicationKey dt r
    · rw [claimForward, if_pos hcond]
      refine List.Pairwise.cons ?_ (ih (prior ++ [r]))
      intro b hb hkey
      have hmem := claimForward_mem dt rs (prior ++ [r]) b hb
      exact hmem.2 ⟨r, List.mem_append_right _ (List.mem_singleton.mpr rfl),
        hcond.1, hkey⟩
    · rw [claimForward, if_neg hcond]
      exact ih (prior ++ [r])

/-- **C2**: starting from a fresh engine, the forwarded stream is exactly
the claim characterization (forward iff the error is empty and no
earlier error-free record carried the same key); `totalFiles` counts every
arrival, `uniqueFiles` counts exactly the forwarded records, error records
are never forwarded, and at most one record per key reaches the output. -/
theorem c2_dedup_forward_characterization (dt : String) (rs : List FileResult) :
    (deduplicate dt initDedupState rs).2 = claimForward dt [] rs ∧
    (deduplicate dt initDedupState rs).1.totalFiles = rs.length ∧
    (deduplicate dt initDedupState rs).1.uniqueFiles =
      ((deduplicate dt initDedupState rs).2).length ∧
    (∀ x ∈ (deduplicate dt initDedupState rs).2, x.error = "") ∧
    ((deduplicate dt initDedupState rs).2).Pairwise
      (fun a b => getDeduplicationKey dt a ≠ getDeduplicationKey dt b) := by
  have heq := deduplicate_eq_claimForward dt rs [] initDedupState
    (by intro k; simp [initDedupState])
  refine ⟨heq, by simpa [initDedupState] using dedup_totalFiles dt rs initDedupState,
    by simpa [initDedupState] using dedup_uniqueFiles dt rs initDedupState, ?_, ?_⟩
  · intro x hx
    rw [heq] at hx
    exact (claimForward_mem dt rs [] x hx).1
  · rw [heq]
    exact claimForward_pairwise dt rs []

/-- The scanner driver equation: `scanTokens` is exactly the loop
"apply `scanStrings`, stop on no token, otherwise collect the token,
consume `advance` bytes and continue" over `scanStringsEOF`. -/
theorem scanTokens_eq_scanStringsEOF (data : List Nat) :
    scanTokens data =
      match scanStringsEOF data with
      | (_, none) => []
      | (adv, some tok) => tok :: scanTokens (data.drop adv) := by
  by_cases h : data.length ≤ (data.takeWhile (fun b => !goIsPrint b)).length
  · rw [scanTokens, dif_pos h]
    simp [scanStringsEOF, h]
  · rw [scanTokens, dif_neg h]
    simp [scanStringsEOF, h]

theorem dropWhile_eq_drop (q : Nat → Bool) :
    ∀ l : List Nat, l.dropWhile q = l.drop (l.takeWhile q).length := by
  intro l
  induction l with
  | nil => rfl
  | cons a t ih =>
    by_cases h : q a
    · rw [List.dropWhile_cons_of_pos h, List.takeWhile_cons_of_pos h]
      simpa using ih
    · rw [List.dropWhile_cons_of_neg h, List.takeWhile_cons_of_neg h]
      rfl

/-- A leading non-printable byte is skipped by the split function without
affecting the token stream. -/
theorem scanTokens_cons_not_printable (b : Nat) (bs : List Nat)
    (hb : goIsPrint b = false) : scanTokens (b :: bs) = scanTokens bs := by
  have htw : (b :: bs).takeWhile (fun x => !goIsPrint x) =
      b :: bs.takeWhile (fun x => !goIsPrint x) :=
    List.takeWhile_cons_of_pos (by simp [hb])
  by_cases hc : bs.length ≤ (bs.takeWhile (fun x => !goIsPrint x)).length
  · conv_lhs => rw [scanTokens]
    conv_rhs => rw [scanTokens]
    rw [dif_pos (by rw [htw]; simpa using hc), dif_pos hc]
  · conv_lhs => rw [scanTokens]
    conv_rhs => rw [scanTokens]
    rw [dif_neg (by rw [htw]; simpa using hc), dif_neg hc]
    rw [htw]
    simp only [List.length_cons, List.drop_succ_cons]
    rw [Nat.add_right_comm, List.drop_succ_cons]

/-- The split-function token stream is exactly the sequence of maximal
printable runs from the specification. -/
theorem scanTokens_eq_printableRuns (data : List Nat) :
    scanTokens data = printableRuns data := by
  have main : ∀ (n : Nat) (data : List Nat), data.length ≤ n →
      scanTokens data = printableRuns data := by
    intro n
    induction n with
    | zero =>
      intro data h
      have hnil : data = [] := List.eq_nil_of_length_eq_zero (Nat.le_zero.mp h)
      subst hnil
      rw [scanTokens, dif_pos (by simp), printableRuns]
    | succ n ih =>
      intro data hlen
      cases data with
      | nil => rw [scanTokens, dif_pos (by simp), printableRuns]
      | cons b bs =>
        by_cases hb : goIsPrint b = true
        · have htw : (b :: bs).takeWhile (fun x => !goIsPrint x) = [] :=
            List.takeWhile_cons_of_neg (by simp [hb])
          rw [scanTokens, dif_neg (by rw [htw]; simp)]
          rw [printableRuns, if_pos hb]
          rw [htw]
          simp only [List.length_nil, List.drop_zero, Nat.zero_add]
          rw [List.takeWhile_cons_of_pos hb]
          simp only [List.length_cons, List.drop_succ_cons]
          rw [← dropWhile_eq_drop goIsPrint bs]
          refine congrArg _ (ih _ ?_)
          exact le_trans (dropWhile_length_le goIsPrint bs)
            (Nat.le_of_succ_le_succ hlen)
        · have hb' : goIsPrint b = false := by simpa using hb
          rw [scanTokens_cons_not_printable b bs hb']
          rw [printableRuns, if_neg hb]
          exact ih bs (Nat.le_of_succ_le_succ hlen)
  exact main data.length data le_rfl

/-- The token loop of `extractStrings` computes the first 10,000 first
occurrences of the qualifying tokens: state-generalised form. -/
theorem extractLoop_eq (minLen : Int) :
    ∀ (ts acc seen : List String), acc.length < 10000 →
      extractLoop minLen acc seen ts =
        acc ++ (dedupKeepFirst seen (ts.filter
          (fun t => decide (minLen ≤ (t.length : Int))))).take (10000 - acc.length) := by
  intro ts
  induction ts with
  | nil =>
    intro acc seen _
    simp [extractLoop, dedupKeepFirst]
  | cons t ts ih =>
    intro acc seen hacc
    by_cases hlen : minLen ≤ (t.length : Int)
    · by_cases hseen : t ∈ seen
      · rw [extractLoop, if_neg (fun hc => hc.2 hseen)]
        rw [List.filter_cons_of_pos (by simpa using hlen)]
        rw [dedupKeepFirst, if_pos hseen]
        exact ih acc seen hacc
      · rw [extractLoop, if_pos ⟨hlen, hseen⟩]
        rw [List.filter_cons_of_pos (by simpa using hlen)]
        rw [dedupKeepFirst, if_neg hseen]
        by_cases hcap : 10000 ≤ acc.length + 1
        · rw [if_pos hcap]
          have hk : 10000 - acc.length = 1 := by omega
          rw [hk]
          simp
        · rw [if_neg hcap]
          rw [ih (acc ++ [t]) (t :: seen) (by simp; omega)]
          have hk : 10000 - acc.length = (10000 - (acc ++ [t]).length) + 1 := by
            simp; omega
          rw [hk, List.take_succ_cons]
          simp
    · rw [extractLoop, if_neg (fun hc => hlen hc.1)]
      rw [List.filter_cons_of_neg (by simpa using hlen)]
      exact ih acc seen hacc

theorem bytesToString_length (l : List Nat) :
    (bytesToString l).length = l.length := by
  show (l.map Char.ofNat).length = l.length
  exact List.length_map l Char.ofNat

/-- A non-empty window of printable bytes is one single maximal run. -/
theorem printableRuns_all_printable (l : List Nat) (hne : l ≠ [])
    (hall : ∀ b ∈ l, goIsPrint b = true) : printableRuns l = [l] := by
  cases l with
  | nil => exact absurd rfl hne
  | cons b bs =>
    rw [printableRuns, if_pos (hall b (List.mem_cons_self _ _))]
    have h1 : bs.takeWhile goIsPrint = bs :=
      List.takeWhile_eq_self_iff.mpr (fun a ha => hall a (List.mem_cons_of_mem _ ha))
    have h2 : bs.dropWhile goIsPrint = [] :=
      List.dropWhile_eq_nil_iff.mpr (fun a ha => hall a (List.mem_cons_of_mem _ ha))
    rw [h1, h2]
    simp [printableRuns]

/-- **C8** (counterexample): an 8192-byte all-printable file delivered in
two full 4096-byte reads — the normal read schedule for a file larger
than the scanner buffer — yields two 4096-byte tokens which deduplicate
to one entry, not the single maximal 8192-byte run the claim requires:
the extraction differs from the claimed maximal-run semantics of the
whole stream. -/
theorem c8_chunk_boundary_counterexample :
    extractStringsChunked 4 [chunkA, chunkA] ≠
      specExtractStrings 4 (chunkA ++ chunkA) := by
  have hallA : ∀ b ∈ chunkA, goIsPrint b = true := by
    intro b hb
    unfold chunkA at hb
    have hb65 := List.eq_of_mem_replicate hb
    subst hb65
    decide
  have hneA : chunkA ≠ [] := by
    unfold chunkA
    exact List.ne_nil_of_length_pos (by rw [List.length_replicate]; norm_num)
  have hTok : scanTokens chunkA = [chunkA] := by
    rw [scanTokens_eq_printableRuns]
    exact printableRuns_all_printable _ hneA hallA
  have h4 : (4 : Int) ≤ ((bytesToString chunkA).length : Int) := by
    rw [bytesToString_length]
    unfold chunkA
    rw [List.length_replicate]
    norm_num
  have hcode : extractStringsChunked 4 [chunkA, chunkA] = [bytesToString chunkA] := by
    unfold extractStringsChunked
    have hext : extractedTokens [chunkA, chunkA] = [chunkA, chunkA] := by
      unfold extractedTokens
      rw [List.map_cons, List.map_cons, List.map_nil, hTok]
      rfl
    rw [hext, List.map_cons, List.map_cons, List.map_nil]
    rw [extractLoop, if_pos ⟨h4, List.not_mem_nil _⟩]
    rw [if_neg (by rw [List.length_nil]; norm_num)]
    rw [extractLoop, if_neg (fun hc => hc.2 (List.mem_cons_self _ _))]
    rw [extractLoop]
    rfl
  have hflat : chunkA ++ chunkA = List.replicate 8192 65 := by
    unfold chunkA
    rw [← List.replicate_add]
  have hallB : ∀ b ∈ List.replicate 8192 (65 : Nat), goIsPrint b = true := by
    intro b hb
    have hb65 := List.eq_of_mem_replicate hb
    subst hb65
    decide
  have hneB : List.replicate 8192 (65 : Nat) ≠ [] :=
    List.ne_nil_of_length_pos (by rw [List.length_replicate]; norm_num)
  have h4B : (4 : Int) ≤ ((bytesToString (List.replicate 8192 65)).length : Int) := by
    rw [bytesToString_length, List.length_replicate]
    norm_num
  have hspec : specExtractStrings 4 (chunkA ++ chunkA) =
      [bytesToString (List.replicate 8192 65)] := by
    rw [hflat]
    unfold specExtractStrings qualifyingTokens
    rw [printableRuns_all_printable _ hneB hallB]
    rw [List.map_cons, List.map_nil]
    rw [List.filter_cons, if_pos (decide_eq_true h4B), List.filter_nil]
    rw [dedupKeepFirst, if_neg (List.not_mem_nil _), dedupKeepFirst]
    have h10000 : (10000 : Nat) = 9999 + 1 := by norm_num
    rw [h10000, List.take_succ_cons, List.take_nil]
  rw [hcode, hspec]
  intro hco
  injection hco with heq _
  have hl := congrArg String.length heq
  rw [bytesToString_length, bytesToString_length] at hl
  unfold chunkA at hl
  rw [List.length_replicate, List.length_replicate] at hl
  norm_num at hl

/-- **C8** (amended): string extraction tokenizes each read chunk
separately — the result is the first 10,000 first occurrences, in stream
order, of the per-chunk maximal printable runs of length at least the
configured minimum, so a run crossing a read boundary is cut at the
boundary; its length is the minimum of 10,000 and the number of distinct
qualifying per-chunk tokens (10,050 distinct qualifying tokens give
exactly 10,000 entries), and for a stream delivered in a single read the
original whole-stream maximal-run description holds. -/
theorem c8_extract_strings_amended (minLen : Int) (chunks : List (List Nat)) :
    extractStringsChunked minLen chunks = chunkedSpecStrings minLen chunks ∧
    (extractStringsChunked minLen chunks).length =
      min 10000 (dedupKeepFirst []
        ((((chunks.map printableRuns).flatten).map bytesToString).filter
          (fun t => decide (minLen ≤ (t.length : Int))))).length ∧
    ∀ data : List Nat,
      extractStringsChunked minLen [data] = specExtractStrings minLen data := by
  have hgen : ∀ chs : List (List Nat),
      extractStringsChunked minLen chs = chunkedSpecStrings minLen chs := by
    intro chs
    have hruns : (chs.map scanTokens).flatten = (chs.map printableRuns).flatten := by
      have hmap : chs.map scanTokens = chs.map printableRuns :=
        List.map_congr_left (fun c _ => scanTokens_eq_printableRuns c)
      rw [hmap]
    unfold extractStringsChunked chunkedSpecStrings extractedTokens
    rw [extractLoop_eq minLen _ [] [] (by norm_num)]
    rw [hruns]
    simp
  refine ⟨hgen chunks, ?_, ?_⟩
  · rw [hgen chunks]
    unfold chunkedSpecStrings
    exact List.length_take _ _
  · intro data
    rw [hgen [data]]
    unfold chunkedSpecStrings specExtractStrings qualifyingTokens
    simp

end AgentFlux
